import Mathlib

/-!
Shallow embedding of the block-recognition and tokenization core of the
markdown-it-admonitions plugin (source file src/index.ts), together with
theorems about its parsing rules.

Strings of the JavaScript source are modelled as `List Char`; JavaScript
string indexing (`s[i]`, which yields `undefined` out of range) is modelled
as `Option Char`.  The two block rules mutate a shared parser state; they
are embedded as functions from a `StateBlock` to a pair of the returned
boolean and the updated state.  The host parser's recursive block
tokenizer (`state.md.block.tokenize`) is external to the repository and is
taken as an abstract function parameter of each rule.  JavaScript `while`
and `for` loops are embedded as structurally recursive functions on an
explicit fuel argument that is instantiated with the exact trip-count
bound of the loop, so every definition is executable.
-/

namespace Admonitions

/-- JavaScript string indexing with a `Nat` index: `s[i]` is `undefined`
(here `none`) when `i` is out of range. -/
def jsStrAt (s : List Char) (i : Nat) : Option Char := s[i]?

/-- JavaScript string indexing with a possibly negative index (used for the
marker index `(pos - originPos) % markerLength`, whose JavaScript remainder
is negative when `pos < originPos`, making the access yield `undefined`). -/
def jsStrAtI (s : List Char) (i : Int) : Option Char :=
  if 0 ≤ i then s[i.toNat]? else none

/-- `String.prototype.slice(a, b)` on the source buffer (for the
non-negative, clamped uses occurring in the plugin). -/
def sliceChars (s : List Char) (a b : Nat) : List Char := (s.drop a).take (b - a)

/-- `String.prototype.repeat`: `marker.repeat(k)`. -/
def repeatChars (m : List Char) (k : Nat) : List Char := (List.replicate k m).flatten

/-- markdown-it's `isSpace` helper (code 0x20 or 0x09), part of the host
parser interface used by `state.skipSpaces`. -/
def isSpace (c : Char) : Bool := c == ' ' || c == '\t'

/-- `String.prototype.trim` (drops leading and trailing whitespace). -/
def trimChars (s : List Char) : List Char :=
  ((s.dropWhile Char.isWhitespace).reverse.dropWhile Char.isWhitespace).reverse

/-- A markdown-it token as far as this plugin reads and writes it:
kind tag, HTML tag, nesting delta, markup, info string, block flag and
source line map. -/
structure Token where
  ttype : List Char
  tag : List Char
  nesting : Int
  markup : List Char
  info : List Char
  block : Bool
  map : Option (Nat × Nat)
deriving Repr, DecidableEq

/-- The mutable block-parser state (markdown-it `StateBlock`) as far as the
plugin reads and writes it: source buffer, per-line offset tables, scope
fields and the token stream. -/
structure StateBlock where
  src : List Char
  bMarks : List Nat
  eMarks : List Nat
  tShift : List Nat
  sCount : List Nat
  blkIndent : Nat
  lineMax : Nat
  parentType : List Char
  line : Nat
  tokens : List Token
deriving Repr, DecidableEq

/-- `state.push(type, tag, nesting)` followed by the field assignments the
rules perform: modelled as appending the fully initialised token. -/
def statePush (state : StateBlock) (tok : Token) : StateBlock :=
  { state with tokens := state.tokens ++ [tok] }

def MIN_MARKER_NUM : Nat := 3

def defaultTypes : List (List Char) :=
  [("note").toList, ("tip").toList, ("warning").toList, ("danger").toList, ("info").toList]

/-- `getLineStart`: `(state.bMarks[line] ?? 0) + (state.tShift[line] ?? 0)`. -/
def getLineStart (state : StateBlock) (line : Nat) : Nat :=
  state.bMarks.getD line 0 + state.tShift.getD line 0

/-- `getLineEnd`: `state.eMarks[line] ?? 0`. -/
def getLineEnd (state : StateBlock) (line : Nat) : Nat :=
  state.eMarks.getD line 0

/-- `getLineIndent`: `state.sCount[line] ?? 0`. -/
def getLineIndent (state : StateBlock) (line : Nat) : Nat :=
  state.sCount.getD line 0

/-- Loop body of markdown-it's `StateBlock.skipSpaces` (host parser
interface): advance while the character at `pos` exists and is a space. -/
def skipSpacesGo (state : StateBlock) : Nat → Nat → Nat
  | 0, pos => pos
  | fuel + 1, pos =>
    match state.src[pos]? with
    | some ch => if isSpace ch then skipSpacesGo state fuel (pos + 1) else pos
    | none => pos

/-- markdown-it's `StateBlock.skipSpaces(pos)`: skip space characters
starting at `pos`, bounded by the end of the buffer. -/
def skipSpaces (state : StateBlock) (pos : Nat) : Nat :=
  skipSpacesGo state (state.src.length - pos) pos

/-- Loop body of `matchMarkerSequence`: `while (checkPosition <= max)`
compare `marker[(checkPosition - startPosition) % markerLength]` with
`state.src[checkPosition]` and advance while they are equal. -/
def matchMarkerSequenceGo (state : StateBlock) (max : Nat) (marker : List Char)
    (markerLength startPosition : Nat) : Nat → Nat → Nat
  | 0, checkPosition => checkPosition
  | fuel + 1, checkPosition =>
    if checkPosition ≤ max then
      if jsStrAtI marker
          (Int.tmod ((checkPosition : Int) - (startPosition : Int)) (markerLength : Int))
          ≠ jsStrAt state.src checkPosition then
        checkPosition
      else
        matchMarkerSequenceGo state max marker markerLength startPosition fuel
          (checkPosition + 1)
    else checkPosition

/-- `matchMarkerSequence(state, position, max, marker, markerLength,
startPosition)`: position after the last matching marker character. -/
def matchMarkerSequence (state : StateBlock) (position max : Nat) (marker : List Char)
    (markerLength startPosition : Nat) : Nat :=
  matchMarkerSequenceGo state max marker markerLength startPosition
    (max + 1 - position) position

/-- `SavedState`: the three scope fields captured by `saveState`. -/
structure SavedState where
  parentType : List Char
  lineMax : Nat
  blkIndent : Nat
deriving Repr, DecidableEq

/-- `saveState(state)`. -/
def saveState (state : StateBlock) : SavedState :=
  { parentType := state.parentType, lineMax := state.lineMax, blkIndent := state.blkIndent }

/-- `restoreState(state, saved)`. -/
def restoreState (state : StateBlock) (saved : SavedState) : StateBlock :=
  { state with parentType := saved.parentType, lineMax := saved.lineMax,
               blkIndent := saved.blkIndent }

/-- `ClosingFenceResult`. -/
structure ClosingFenceResult where
  found : Bool
  nextLine : Nat
deriving Repr, DecidableEq

/-- The early-break condition of the closing-fence loop: a non-empty line
whose indent is less than the opening line's indent stops the search. -/
def closingFenceBreakCond (state : StateBlock) (currentLineIndent nextLine : Nat) : Bool :=
  decide (getLineStart state nextLine < getLineEnd state nextLine) &&
    decide (getLineIndent state nextLine < currentLineIndent)

/-- The closing-fence acceptance condition checked for one candidate line:
equal indent, matching first character, a marker run of at least
`markerCount` full repetitions, and only spaces after the run. -/
def closingFenceCloseCond (state : StateBlock) (currentLineIndent : Nat)
    (markerStart : Option Char) (marker : List Char) (markerLength markerCount : Nat)
    (nextLine : Nat) : Bool :=
  let nextLineStart := getLineStart state nextLine
  let nextLineMax := getLineEnd state nextLine
  decide (getLineIndent state nextLine = currentLineIndent) &&
    decide (markerStart = jsStrAt state.src nextLineStart) &&
    (let position := matchMarkerSequence state (nextLineStart + 1) nextLineMax marker
        markerLength nextLineStart
     decide (markerCount ≤ (position - nextLineStart) / markerLength) &&
       (let position2 := position - (position - nextLineStart) % markerLength
        decide (nextLineMax ≤ skipSpaces state position2)))

/-- Loop of `findClosingFence`: `for (; nextLine < endLine; nextLine++)`. -/
def findClosingFenceGo (state : StateBlock) (endLine currentLineIndent : Nat)
    (markerStart : Option Char) (marker : List Char) (markerLength markerCount : Nat) :
    Nat → Nat → ClosingFenceResult
  | 0, nextLine => { found := false, nextLine := nextLine }
  | fuel + 1, nextLine =>
    if nextLine < endLine then
      if closingFenceBreakCond state currentLineIndent nextLine then
        { found := false, nextLine := nextLine }
      else if closingFenceCloseCond state currentLineIndent markerStart marker
          markerLength markerCount nextLine then
        { found := true, nextLine := nextLine }
      else
        findClosingFenceGo state endLine currentLineIndent markerStart marker
          markerLength markerCount fuel (nextLine + 1)
    else { found := false, nextLine := nextLine }

/-- `findClosingFence(state, startLine, endLine, currentLineIndent,
markerStart, marker, markerLength, markerCount)`. -/
def findClosingFence (state : StateBlock) (startLine endLine currentLineIndent : Nat)
    (markerStart : Option Char) (marker : List Char) (markerLength markerCount : Nat) :
    ClosingFenceResult :=
  findClosingFenceGo state endLine currentLineIndent markerStart marker markerLength
    markerCount (endLine - (startLine + 1)) (startLine + 1)

def admPrefix : List Char := ("admonition_").toList

def openSuffix : List Char := ("_open").toList

def closeSuffix : List Char := ("_close").toList

/-- The open token pushed by the fenced-container rule
(`admonition_<name>_open` with markup, info and map set as in the source). -/
def containerOpenToken (name markup params : List Char) (startLine nextLine : Nat) : Token :=
  { ttype := admPrefix ++ (name ++ openSuffix), tag := ("div").toList, nesting := 1,
    markup := markup, info := params, block := true, map := some (startLine, nextLine) }

/-- The close token pushed by the fenced-container rule. -/
def containerCloseToken (name markup : List Char) : Token :=
  { ttype := admPrefix ++ (name ++ closeSuffix), tag := ("div").toList, nesting := -1,
    markup := markup, info := [], block := true, map := none }

/-- The default `validate` closure built by the plugin for a type:
`params.trim().split(" ", 2)[0] === type`. -/
def defaultValidate (name : List Char) (params _markup : List Char) : Bool :=
  (trimChars params).takeWhile (fun c => c ≠ ' ') == name

/-- The fenced-container block rule produced by
`createAdmonitionContainer` for a type `name` and marker `marker`;
`tokenize` is the host parser's recursive block tokenizer
`state.md.block.tokenize`.  Returns the rule's boolean result together
with the updated state. -/
def container (tokenize : StateBlock → Nat → Nat → StateBlock)
    (name marker : List Char) (validate : List Char → List Char → Bool)
    (state : StateBlock) (startLine endLine : Nat) (silent : Bool) :
    Bool × StateBlock :=
  let markerStart := marker[0]?
  let markerLength := marker.length
  let currentLineStart := getLineStart state startLine
  let currentLineMax := getLineEnd state startLine
  let currentLineIndent := getLineIndent state startLine
  if markerStart ≠ jsStrAt state.src currentLineStart then (false, state)
  else
    let position := matchMarkerSequence state (currentLineStart + 1) currentLineMax marker
      markerLength currentLineStart
    let markerCount := (position - currentLineStart) / markerLength
    if markerCount < MIN_MARKER_NUM then (false, state)
    else
      let position := position - (position - currentLineStart) % markerLength
      let markup := repeatChars marker markerCount
      let params := sliceChars state.src position currentLineMax
      if ¬ validate params markup then (false, state)
      else if silent then (true, state)
      else
        let closingFence := findClosingFence state startLine endLine currentLineIndent
          markerStart marker markerLength markerCount
        let savedState := saveState state
        let s1 := { state with parentType := ("container").toList,
                               lineMax := closingFence.nextLine,
                               blkIndent := currentLineIndent }
        let s2 := statePush s1 (containerOpenToken name markup params startLine
          closingFence.nextLine)
        let s3 := tokenize s2 (startLine + 1) closingFence.nextLine
        let s4 := statePush s3 (containerCloseToken name markup)
        let s5 := restoreState s4 savedState
        (true, { s5 with line := closingFence.nextLine + (if closingFence.found then 1 else 0) })

/-- The `]`-scanning loop of `parseObsidianCalloutType`:
`while (typeEndPosition < max && state.src[typeEndPosition] !== "]")`. -/
def findCloseBracketGo (state : StateBlock) (max : Nat) : Nat → Nat → Nat
  | 0, typeEndPosition => typeEndPosition
  | fuel + 1, typeEndPosition =>
    if typeEndPosition < max then
      if jsStrAt state.src typeEndPosition ≠ some ']' then
        findCloseBracketGo state max fuel (typeEndPosition + 1)
      else typeEndPosition
    else typeEndPosition

/-- Position of the first `]` at or after `typeEndPosition`, bounded by `max`. -/
def findCloseBracket (state : StateBlock) (max typeEndPosition : Nat) : Nat :=
  findCloseBracketGo state max (max - typeEndPosition) typeEndPosition

/-- `ObsidianCalloutInfo`. -/
structure ObsidianCalloutInfo where
  calloutType : List Char
  title : List Char
deriving Repr, DecidableEq

/-- `parseObsidianCalloutType(state, startLine, types)`: parses the
`> [!type] Title` header line; `none` models the source's `null`. -/
def parseObsidianCalloutType (state : StateBlock) (startLine : Nat)
    (types : List (List Char)) : Option ObsidianCalloutInfo :=
  let position := getLineStart state startLine
  let max := getLineEnd state startLine
  if jsStrAt state.src position ≠ some '>' then none
  else
    let linePosition := position + 1
    let linePosition :=
      if jsStrAt state.src linePosition = some ' ' then linePosition + 1 else linePosition
    if jsStrAt state.src linePosition ≠ some '[' ∨
        jsStrAt state.src (linePosition + 1) ≠ some '!' then none
    else
      let typeEndPosition := findCloseBracket state max (linePosition + 2)
      if max ≤ typeEndPosition then none
      else
        let calloutType :=
          (sliceChars state.src (linePosition + 2) typeEndPosition).map Char.toLower
        if calloutType ∉ types then none
        else
          let title :=
            if typeEndPosition + 1 < max then
              trimChars (sliceChars state.src (typeEndPosition + 1) max)
            else []
          some { calloutType := calloutType, title := title }

/-- Collection loop of `extractObsidianContent`: gather contiguous
`>`-prefixed lines, stripping `>` and at most one following space. -/
def extractObsidianContentGo (state : StateBlock) (endLine : Nat) :
    Nat → Nat → List (List Char) × Nat
  | 0, nextLine => ([], nextLine)
  | fuel + 1, nextLine =>
    if nextLine < endLine then
      let nextPosition := getLineStart state nextLine
      let nextMax := getLineEnd state nextLine
      if jsStrAt state.src nextPosition ≠ some '>' then ([], nextLine)
      else
        let contentStartPosition := nextPosition + 1
        let contentStartPosition :=
          if jsStrAt state.src contentStartPosition = some ' ' then contentStartPosition + 1
          else contentStartPosition
        let rest := extractObsidianContentGo state endLine fuel (nextLine + 1)
        (sliceChars state.src contentStartPosition nextMax :: rest.1, rest.2)
    else ([], nextLine)

/-- `extractObsidianContent(state, startLine, endLine)`. -/
def extractObsidianContent (state : StateBlock) (startLine endLine : Nat) :
    List (List Char) × Nat :=
  extractObsidianContentGo state endLine (endLine - (startLine + 1)) (startLine + 1)

/-- The `bMarks` built by the line-table loop of
`processContentWithTemporaryState` starting at `offset`. -/
def buildBMarks : List (List Char) → Nat → List Nat
  | [], _ => []
  | l :: ls, offset => offset :: buildBMarks ls (offset + l.length + 1)

/-- The `eMarks` built by the line-table loop of
`processContentWithTemporaryState` starting at `offset`. -/
def buildEMarks : List (List Char) → Nat → List Nat
  | [], _ => []
  | l :: ls, offset => (offset + l.length) :: buildEMarks ls (offset + l.length + 1)

/-- `processContentWithTemporaryState(state, contentLines)`: swap in the
synthetic buffer and line table, tokenize it recursively, then restore the
saved arrays.  `tokenize` is the host parser's `state.md.block.tokenize`. -/
def processContentWithTemporaryState (tokenize : StateBlock → Nat → Nat → StateBlock)
    (state : StateBlock) (contentLines : List (List Char)) : StateBlock :=
  if contentLines.length = 0 then state
  else
    let contentSrc := List.intercalate ['\n'] contentLines
    let saved := (state.src, state.bMarks, state.eMarks, state.tShift, state.sCount)
    let s1 := { state with
      src := contentSrc,
      bMarks := buildBMarks contentLines 0,
      eMarks := buildEMarks contentLines 0,
      tShift := List.replicate contentLines.length 0,
      sCount := List.replicate contentLines.length 0,
      lineMax := contentLines.length }
    let s2 := tokenize s1 0 contentLines.length
    { s2 with src := saved.1, bMarks := saved.2.1, eMarks := saved.2.2.1,
              tShift := saved.2.2.2.1, sCount := saved.2.2.2.2 }

/-- The open token pushed by the blockquote-callout rule. -/
def obsidianOpenToken (calloutTypeName info : List Char) (startLine nextLine : Nat) : Token :=
  { ttype := admPrefix ++ (calloutTypeName ++ openSuffix), tag := ("div").toList,
    nesting := 1, markup := ['>'], info := info, block := true,
    map := some (startLine, nextLine) }

/-- The close token pushed by the blockquote-callout rule. -/
def obsidianCloseToken (calloutTypeName : List Char) : Token :=
  { ttype := admPrefix ++ (calloutTypeName ++ closeSuffix), tag := ("div").toList,
    nesting := -1, markup := ['>'], info := [], block := true, map := none }

/-- The blockquote-callout block rule produced by
`createObsidianCalloutRule(types)`; `tokenize` is the host parser's
recursive block tokenizer.  Returns the rule's boolean result together
with the updated state. -/
def obsidianCallout (tokenize : StateBlock → Nat → Nat → StateBlock)
    (types : List (List Char)) (state : StateBlock) (startLine endLine : Nat)
    (silent : Bool) : Bool × StateBlock :=
  match parseObsidianCalloutType state startLine types with
  | none => (false, state)
  | some calloutInfo =>
    if silent then (true, state)
    else
      let extracted := extractObsidianContent state startLine endLine
      let contentLines := extracted.1
      let nextLine := extracted.2
      let savedState := saveState state
      let s1 := { state with parentType := ("blockquote").toList }
      let info := calloutInfo.calloutType ++
        (if calloutInfo.title.isEmpty then [] else ' ' :: calloutInfo.title)
      let s2 := statePush s1 (obsidianOpenToken calloutInfo.calloutType info startLine nextLine)
      let s3 := processContentWithTemporaryState tokenize s2 contentLines
      let s4 := statePush s3 (obsidianCloseToken calloutInfo.calloutType)
      let s5 := restoreState s4 savedState
      (true, { s5 with line := nextLine })

/-- `CustomRenderPair`: presence of the caller-supplied `open`/`close`
render functions (their bodies are irrelevant to registration). -/
structure CustomRenderPair where
  openFn : Option Unit
  closeFn : Option Unit
deriving Repr, DecidableEq

/-- `AdmonitionPluginOptions` as the typed registration call receives
them; `none` models an omitted option.  JavaScript objects are modelled
as association lists. -/
structure AdmonitionPluginOptions where
  types : Option (List (List Char)) := none
  marker : Option (List Char) := none
  icons : Option (List (List Char × List Char)) := none
  customRenders : Option (List (List Char × CustomRenderPair)) := none
  obsidianStyle : Option Bool := none
  docusaurusStyle : Option Bool := none
deriving Repr, DecidableEq

/-- `validateTypes`: every type name must be a non-empty string.  Thrown
`TypeError`s are modelled as `Except.error`. -/
def validateTypes (types : List (List Char)) : Except (List Char) Unit :=
  if types.any (fun t => t.isEmpty) then
    Except.error (("All type names must be non-empty strings").toList)
  else Except.ok ()

/-- `validateIcons`: keys must be non-empty strings. -/
def validateIcons (icons : List (List Char × List Char)) : Except (List Char) Unit :=
  if icons.any (fun kv => kv.1.isEmpty) then
    Except.error (("options.icons must map string keys to string values").toList)
  else Except.ok ()

/-- `validateRenderPair(key, pair)`: key non-empty, and `open`/`close`
must be supplied together. -/
def validateRenderPair (key : List Char) (pair : CustomRenderPair) :
    Except (List Char) Unit :=
  if key.isEmpty then
    Except.error (("customRenders keys must be non-empty strings").toList)
  else if pair.openFn.isSome && !pair.closeFn.isSome then
    Except.error (("customRenders entry has open but missing close").toList)
  else if pair.closeFn.isSome && !pair.openFn.isSome then
    Except.error (("customRenders entry has close but missing open").toList)
  else Except.ok ()

/-- `validateCustomRenders`: validate every entry in order. -/
def validateCustomRenders : List (List Char × CustomRenderPair) → Except (List Char) Unit
  | [] => Except.ok ()
  | (key, pair) :: rest => do
    validateRenderPair key pair
    validateCustomRenders rest

/-- The `options.types !== undefined` guard around `validateTypes`. -/
def validateTypesOpt : Option (List (List Char)) → Except (List Char) Unit
  | some t => validateTypes t
  | none => Except.ok ()

/-- The `options.marker !== undefined` guard and non-empty check. -/
def validateMarkerOpt : Option (List Char) → Except (List Char) Unit
  | some m =>
    if m.isEmpty then Except.error (("options.marker must be a non-empty string").toList)
    else Except.ok ()
  | none => Except.ok ()

/-- The `options.icons !== undefined` guard around `validateIcons`. -/
def validateIconsOpt : Option (List (List Char × List Char)) → Except (List Char) Unit
  | some i => validateIcons i
  | none => Except.ok ()

/-- The `options.customRenders !== undefined` guard around
`validateCustomRenders`. -/
def validateCustomRendersOpt :
    Option (List (List Char × CustomRenderPair)) → Except (List Char) Unit
  | some crs => validateCustomRenders crs
  | none => Except.ok ()

/-- `validatePluginOptions(options)`: the runtime option validation run
first by the plugin (checks that are vacuous in this typed model, such as
`typeof` tests on booleans, are omitted). -/
def validatePluginOptions (options : AdmonitionPluginOptions) : Except (List Char) Unit := do
  validateTypesOpt options.types
  validateMarkerOpt options.marker
  validateIconsOpt options.icons
  validateCustomRendersOpt options.customRenders

/-- `validateComplementaryOptions(obsidianStyle, docusaurusStyle)`: at
least one syntax style must be enabled. -/
def validateComplementaryOptions (obsidianStyle docusaurusStyle : Bool) :
    Except (List Char) Unit :=
  if !obsidianStyle && !docusaurusStyle then
    Except.error (("At least one of options.obsidianStyle or options.docusaurusStyle must be enabled").toList)
  else Except.ok ()

/-- The option validation performed inside `createAdmonitionContainer`. -/
def createAdmonitionContainerChecks (name marker : List Char) : Except (List Char) Unit :=
  if name.isEmpty then
    Except.error (("Container options.name must be a non-empty string").toList)
  else if marker.isEmpty then
    Except.error (("Container options.marker must be a non-empty string").toList)
  else Except.ok ()

/-- The types validation performed inside `createObsidianCalloutRule`. -/
def createObsidianCalloutRuleChecks (types : List (List Char)) : Except (List Char) Unit :=
  if types.isEmpty then
    Except.error (("Callout rule types parameter must be a non-empty array").toList)
  else if types.any (fun t => t.isEmpty) then
    Except.error (("Callout rule types parameter must contain only non-empty strings").toList)
  else Except.ok ()

/-- The rules registered with the host parser and renderer: returned by
the registration model in place of the source's mutation of the
markdown-it instance. -/
structure Registration where
  blockRules : List (List Char)
  renderRules : List (List Char)
deriving Repr, DecidableEq

/-- `registerRenderRules`: skip when the open rule for the type is
already registered, otherwise add both the open and the close rule. -/
def registerRenderRules (renderRules : List (List Char)) (type : List Char) :
    List (List Char) :=
  if (admPrefix ++ (type ++ openSuffix)) ∈ renderRules then renderRules
  else renderRules ++ [admPrefix ++ (type ++ openSuffix), admPrefix ++ (type ++ closeSuffix)]

/-- The Docusaurus-style registration loop: one container rule and one
render-rule pair per type. -/
def registerDocusaurusRules (marker : List Char) :
    List (List Char) → Registration → Except (List Char) Registration
  | [], reg => Except.ok reg
  | type :: rest, reg => do
    createAdmonitionContainerChecks type marker
    registerDocusaurusRules marker rest
      { reg with blockRules := reg.blockRules ++ [("admonition_").toList ++ type],
                 renderRules := registerRenderRules reg.renderRules type }

/-- The Obsidian-style render-rule registration loop. -/
def registerObsidianRenderRules : List (List Char) → Registration → Registration
  | [], reg => reg
  | type :: rest, reg =>
    registerObsidianRenderRules rest
      { reg with renderRules := registerRenderRules reg.renderRules type }

/-- `admonitionPlugin(md, options)`: validate the options, apply the
defaults, validate the complementary style flags, then register the block
and render rules.  A thrown `TypeError` is `Except.error`; the returned
`Registration` stands for the rules installed on the markdown-it
instance. -/
def admonitionPlugin (options : AdmonitionPluginOptions) :
    Except (List Char) Registration := do
  validatePluginOptions options
  let typesArray := options.types.getD defaultTypes
  let marker := options.marker.getD [':']
  let obsidianStyle := options.obsidianStyle.getD true
  let docusaurusStyle := options.docusaurusStyle.getD true
  validateComplementaryOptions obsidianStyle docusaurusStyle
  let reg : Registration := { blockRules := [], renderRules := [] }
  let reg ← if docusaurusStyle then registerDocusaurusRules marker typesArray reg
            else pure reg
  if obsidianStyle then do
    createObsidianCalloutRuleChecks typesArray
    pure (registerObsidianRenderRules typesArray
      { reg with blockRules := reg.blockRules ++ [("obsidian_callout").toList] })
  else pure reg

/-- Classify a token-kind string: `some (true, t)` when it is
`admonition_<t>_open`, `some (false, t)` when it is `admonition_<t>_close`,
`none` otherwise. -/
def admTag (ty : List Char) : Option (Bool × List Char) :=
  if admPrefix.isPrefixOf ty && openSuffix.isSuffixOf ty &&
      decide (admPrefix.length + openSuffix.length ≤ ty.length) then
    some (true, (ty.drop admPrefix.length).take (ty.length - admPrefix.length - openSuffix.length))
  else if admPrefix.isPrefixOf ty && closeSuffix.isSuffixOf ty &&
      decide (admPrefix.length + closeSuffix.length ≤ ty.length) then
    some (false, (ty.drop admPrefix.length).take (ty.length - admPrefix.length - closeSuffix.length))
  else none

/-- Balanced-parenthesis invariant for admonition tokens in a token
stream: the subsequence of `admonition_<t>_open` / `admonition_<t>_close`
tokens is a Dyck word in which every close matches the nearest enclosing
open of the same type — opens and closes nest without crossing, and all
tokens of a block's interior lie strictly between its open and its
close. -/
inductive AdmDyck : List Token → Prop
  | nil : AdmDyck []
  | consNeutral (tok : Token) (rest : List Token) :
      admTag tok.ttype = none → AdmDyck rest → AdmDyck (tok :: rest)
  | wrap (t : List Char) (openTok closeTok : Token) (inner rest : List Token) :
      admTag openTok.ttype = some (true, t) →
      admTag closeTok.ttype = some (false, t) →
      AdmDyck inner → AdmDyck rest →
      AdmDyck (openTok :: inner ++ closeTok :: rest)

/-- Number of `admonition_<t>_open` tokens in a token list. -/
def countOpenTokens (t : List Char) (l : List Token) : Nat :=
  l.countP (fun tok => tok.ttype == admPrefix ++ (t ++ openSuffix))

/-- Number of `admonition_<t>_close` tokens in a token list. -/
def countCloseTokens (t : List Char) (l : List Token) : Nat :=
  l.countP (fun tok => tok.ttype == admPrefix ++ (t ++ closeSuffix))

/-- A concrete parser state over the three-character buffer `:::`
(one line spanning offsets 0 to 3). -/
def c4State : StateBlock :=
  { src := (":::").toList, bMarks := [0], eMarks := [3], tShift := [0], sCount := [0],
    blkIndent := 0, lineMax := 1, parentType := ("root").toList, line := 0, tokens := [] }

/-- The position of the `[` in a callout header line: one past the `>`
marker, skipping one optional space (spec-side helper naming the
`linePosition` computed by `parseObsidianCalloutType`). -/
def calloutHeaderBracketPos (state : StateBlock) (startLine : Nat) : Nat :=
  if jsStrAt state.src (getLineStart state startLine + 1) = some ' '
  then getLineStart state startLine + 1 + 1
  else getLineStart state startLine + 1

/-- A concrete parser state over `":::note\nbody\n"`: an opening fence
line with no closing fence. -/
def c3State : StateBlock :=
  { src := (":::note\nbody\n").toList, bMarks := [0, 8], eMarks := [7, 12],
    tShift := [0, 0], sCount := [0, 0], blkIndent := 0, lineMax := 2,
    parentType := ("root").toList, line := 0, tokens := [] }

/-- A concrete parser state over `":::note\nbody\n:::\n"`: a fenced block
with a real closing fence on line 2. -/
def c2State : StateBlock :=
  { src := (":::note\nbody\n:::\n").toList, bMarks := [0, 8, 13], eMarks := [7, 12, 16],
    tShift := [0, 0, 0], sCount := [0, 0, 0], blkIndent := 0, lineMax := 3,
    parentType := ("root").toList, line := 0, tokens := [] }

/-- A concrete parser state over the single callout header line
`"> [!note] Hi\n"`. -/
def c10State : StateBlock :=
  { src := ("> [!note] Hi\n").toList, bMarks := [0], eMarks := [12], tShift := [0],
    sCount := [0], blkIndent := 0, lineMax := 1, parentType := ("root").toList,
    line := 0, tokens := [] }

/-- Options with an asymmetric custom render pair for `note`. -/
def c9Options : AdmonitionPluginOptions :=
  { customRenders := some [((("note").toList),
      { openFn := some (), closeFn := none })] }

lemma admTag_open_name (t : List Char) :
    admTag (admPrefix ++ (t ++ openSuffix)) = some (true, t) := by
  have hp : admPrefix.isPrefixOf (admPrefix ++ (t ++ openSuffix)) = true :=
    List.isPrefixOf_iff_prefix.mpr ⟨t ++ openSuffix, rfl⟩
  have hs : openSuffix.isSuffixOf (admPrefix ++ (t ++ openSuffix)) = true :=
    List.isSuffixOf_iff_suffix.mpr ⟨admPrefix ++ t, by simp⟩
  have hlen : admPrefix.length + openSuffix.length ≤ (admPrefix ++ (t ++ openSuffix)).length := by
    simp only [List.length_append]; omega
  have harith : (admPrefix ++ (t ++ openSuffix)).length - admPrefix.length - openSuffix.length
      = t.length := by
    simp only [List.length_append]; omega
  have hcond : (admPrefix.isPrefixOf (admPrefix ++ (t ++ openSuffix)) &&
      (openSuffix.isSuffixOf (admPrefix ++ (t ++ openSuffix)) &&
        decide (admPrefix.length + openSuffix.length ≤
          (admPrefix ++ (t ++ openSuffix)).length))) = true := by
    rw [hp, hs]; simp [hlen]
  rw [admTag, if_pos (by rw [← Bool.and_assoc] at hcond; exact hcond),
    List.drop_left, harith, List.take_left]

lemma suffix_getLast_eq {l₁ l₂ : List Char} (h : l₁ <:+ l₂) (hne : l₁ ≠ []) :
    l₂.getLast? = l₁.getLast? := by
  obtain ⟨p, hp⟩ := h
  rw [← hp]
  exact List.getLast?_append_of_ne_nil p hne

lemma admTag_close_name (t : List Char) :
    admTag (admPrefix ++ (t ++ closeSuffix)) = some (false, t) := by
  have hnsuf : openSuffix.isSuffixOf (admPrefix ++ (t ++ closeSuffix)) = false := by
    rw [Bool.eq_false_iff]
    intro hc
    have h2 := suffix_getLast_eq (List.isSuffixOf_iff_suffix.mp hc) (by decide)
    have hcs : closeSuffix <:+ admPrefix ++ (t ++ closeSuffix) := ⟨admPrefix ++ t, by simp⟩
    have h1 : (admPrefix ++ (t ++ closeSuffix)).getLast? = closeSuffix.getLast? :=
      suffix_getLast_eq hcs (by decide)
    rw [h1] at h2
    exact absurd h2 (by decide)
  have hp : admPrefix.isPrefixOf (admPrefix ++ (t ++ closeSuffix)) = true :=
    List.isPrefixOf_iff_prefix.mpr ⟨t ++ closeSuffix, rfl⟩
  have hs : closeSuffix.isSuffixOf (admPrefix ++ (t ++ closeSuffix)) = true :=
    List.isSuffixOf_iff_suffix.mpr ⟨admPrefix ++ t, by simp⟩
  have hlen : admPrefix.length + closeSuffix.length ≤ (admPrefix ++ (t ++ closeSuffix)).length := by
    simp only [List.length_append]; omega
  have harith : (admPrefix ++ (t ++ closeSuffix)).length - admPrefix.length - closeSuffix.length
      = t.length := by
    simp only [List.length_append]; omega
  rw [admTag, if_neg (by simp [hnsuf]), if_pos (by simp [hp, hs, hlen]),
    List.drop_left, harith, List.take_left]

lemma admTag_eq_open {ty t : List Char} (h : admTag ty = some (true, t)) :
    ty = admPrefix ++ (t ++ openSuffix) := by
  unfold admTag at h
  by_cases h1 : (admPrefix.isPrefixOf ty && openSuffix.isSuffixOf ty &&
      decide (admPrefix.length + openSuffix.length ≤ ty.length)) = true
  · rw [if_pos h1] at h
    obtain ⟨h12, hlen⟩ := Bool.and_eq_true_iff.mp h1
    obtain ⟨hpre, hsuf⟩ := Bool.and_eq_true_iff.mp h12
    have hlen2 : admPrefix.length + openSuffix.length ≤ ty.length := of_decide_eq_true hlen
    obtain ⟨q, hq⟩ := List.isPrefixOf_iff_prefix.mp hpre
    obtain ⟨p, hp⟩ := List.isSuffixOf_iff_suffix.mp hsuf
    have hple : admPrefix.length ≤ p.length := by
      have : ty.length = p.length + openSuffix.length := by rw [← hp]; simp
      omega
    obtain ⟨q0, hq0⟩ := List.prefix_of_prefix_length_le ⟨q, hq⟩ ⟨openSuffix, hp⟩ hple
    have hty : ty = admPrefix ++ (q0 ++ openSuffix) := by
      rw [← hp, ← hq0]; simp
    have hqv : q = q0 ++ openSuffix :=
      List.append_cancel_left (hq.trans hty)
    have harith : ty.length - admPrefix.length - openSuffix.length = q0.length := by
      rw [hty]; simp only [List.length_append]; omega
    have hdrop : ty.drop admPrefix.length = q := by rw [← hq]; exact List.drop_left _ _
    have htake : (ty.drop admPrefix.length).take
        (ty.length - admPrefix.length - openSuffix.length) = q0 := by
      rw [hdrop, harith, hqv]
      exact List.take_left q0 openSuffix
    rw [htake] at h
    obtain ⟨rfl⟩ : t = q0 := by
      have := (Option.some.injEq _ _).mp h
      exact (Prod.mk.injEq _ _ _ _).mp this |>.2 |>.symm
    exact hty
  · rw [if_neg h1] at h
    by_cases h2 : (admPrefix.isPrefixOf ty && closeSuffix.isSuffixOf ty &&
        decide (admPrefix.length + closeSuffix.length ≤ ty.length)) = true
    · rw [if_pos h2] at h
      exact absurd ((Option.some.injEq _ _).mp h) (by simp)
    · rw [if_neg h2] at h
      exact Option.noConfusion h

lemma admTag_eq_close {ty t : List Char} (h : admTag ty = some (false, t)) :
    ty = admPrefix ++ (t ++ closeSuffix) := by
  unfold admTag at h
  by_cases h1 : (admPrefix.isPrefixOf ty && openSuffix.isSuffixOf ty &&
      decide (admPrefix.length + openSuffix.length ≤ ty.length)) = true
  · rw [if_pos h1] at h
    exact absurd ((Option.some.injEq _ _).mp h) (by simp)
  · rw [if_neg h1] at h
    by_cases h2 : (admPrefix.isPrefixOf ty && closeSuffix.isSuffixOf ty &&
        decide (admPrefix.length + closeSuffix.length ≤ ty.length)) = true
    · rw [if_pos h2] at h
      obtain ⟨h12, hlen⟩ := Bool.and_eq_true_iff.mp h2
      obtain ⟨hpre, hsuf⟩ := Bool.and_eq_true_iff.mp h12
      obtain ⟨q, hq⟩ := List.isPrefixOf_iff_prefix.mp hpre
      obtain ⟨p, hp⟩ := List.isSuffixOf_iff_suffix.mp hsuf
      have hlen2 : admPrefix.length + closeSuffix.length ≤ ty.length := of_decide_eq_true hlen
      have hple : admPrefix.length ≤ p.length := by
        have : ty.length = p.length + closeSuffix.length := by rw [← hp]; simp
        omega
      obtain ⟨q0, hq0⟩ := List.prefix_of_prefix_length_le ⟨q, hq⟩ ⟨closeSuffix, hp⟩ hple
      have hty : ty = admPrefix ++ (q0 ++ closeSuffix) := by
        rw [← hp, ← hq0]; simp
      have hqv : q = q0 ++ closeSuffix :=
        List.append_cancel_left (hq.trans hty)
      have harith : ty.length - admPrefix.length - closeSuffix.length = q0.length := by
        rw [hty]; simp only [List.length_append]; omega
      have hdrop : ty.drop admPrefix.length = q := by rw [← hq]; exact List.drop_left _ _
      have htake : (ty.drop admPrefix.length).take
          (ty.length - admPrefix.length - closeSuffix.length) = q0 := by
        rw [hdrop, harith, hqv]
        exact List.take_left q0 closeSuffix
      rw [htake] at h
      obtain ⟨rfl⟩ : t = q0 := by
        have := (Option.some.injEq _ _).mp h
        exact (Prod.mk.injEq _ _ _ _).mp this |>.2 |>.symm
      exact hty
    · rw [if_neg h2] at h
      exact Option.noConfusion h

lemma open_name_ne_close_name (t t2 : List Char) :
    admPrefix ++ (t ++ openSuffix) ≠ admPrefix ++ (t2 ++ closeSuffix) := by
  intro h
  have h1 := admTag_open_name t
  rw [h, admTag_close_name t2] at h1
  exact absurd ((Option.some.injEq _ _).mp h1) (by simp)

lemma open_name_inj {t t2 : List Char} :
    admPrefix ++ (t ++ openSuffix) = admPrefix ++ (t2 ++ openSuffix) ↔ t = t2 := by
  constructor
  · intro h
    exact List.append_cancel_right (List.append_cancel_left h)
  · intro h; rw [h]

lemma close_name_inj {t t2 : List Char} :
    admPrefix ++ (t ++ closeSuffix) = admPrefix ++ (t2 ++ closeSuffix) ↔ t = t2 := by
  constructor
  · intro h
    exact List.append_cancel_right (List.append_cancel_left h)
  · intro h; rw [h]

/-- Every Dyck-balanced token list has equally many open and close
admonition tokens of each type. -/
lemma AdmDyck.count_eq {l : List Token} (h : AdmDyck l) (t : List Char) :
    countOpenTokens t l = countCloseTokens t l := by
  induction h with
  | nil => rfl
  | consNeutral tok rest hnone _ ih =>
    have ho : ¬ (tok.ttype = admPrefix ++ (t ++ openSuffix)) := by
      intro he; rw [he, admTag_open_name] at hnone; exact Option.noConfusion hnone
    have hc : ¬ (tok.ttype = admPrefix ++ (t ++ closeSuffix)) := by
      intro he; rw [he, admTag_close_name] at hnone; exact Option.noConfusion hnone
    simpa [countOpenTokens, countCloseTokens, List.countP_cons, ho, hc] using ih
  | wrap t2 openTok closeTok inner rest hopen hclose _ _ ih1 ih2 =>
    have ho := admTag_eq_open hopen
    have hc := admTag_eq_close hclose
    have hoc : ¬ (openTok.ttype = admPrefix ++ (t ++ closeSuffix)) := by
      rw [ho]; intro he
      exact open_name_ne_close_name t2 t he
    have hco : ¬ (closeTok.ttype = admPrefix ++ (t ++ openSuffix)) := by
      rw [hc]; intro he
      exact open_name_ne_close_name t t2 he.symm
    have hsufne : ¬ (openSuffix = closeSuffix) := by decide
    have hsufne2 : ¬ (closeSuffix = openSuffix) := by decide
    by_cases ht : t2 = t
    · subst ht
      simp [countOpenTokens, countCloseTokens, List.countP_cons, List.countP_append,
        ho, hc, hoc, hco, hsufne, hsufne2] at *
      omega
    · have ho2 : ¬ (openTok.ttype = admPrefix ++ (t ++ openSuffix)) := by
        rw [ho]; intro he
        exact ht (open_name_inj.mp he)
      have hc2 : ¬ (closeTok.ttype = admPrefix ++ (t ++ closeSuffix)) := by
        rw [hc]; intro he
        exact ht (close_name_inj.mp he)
      simp [countOpenTokens, countCloseTokens, List.countP_cons, List.countP_append,
        ho2, hc2, hoc, hco, hsufne, hsufne2] at *
      omega

lemma tokens_statePush (s : StateBlock) (tok : Token) :
    (statePush s tok).tokens = s.tokens ++ [tok] := rfl

lemma tokens_restoreState (s : StateBlock) (saved : SavedState) :
    (restoreState s saved).tokens = s.tokens := rfl

/-- C1.  Balanced-token invariant of both rules: whenever the host
tokenizer only ever appends a Dyck-balanced token segment (which holds in
particular for the recursive re-entry into these very rules), a non-silent
invocation of the fenced-container rule or of the blockquote-callout rule
appends to the token stream a segment that is itself Dyck-balanced — every
`admonition_<type>_open` is matched by exactly one `admonition_<type>_close`
at the same depth, the block's interior tokens lie strictly between the
two, opens and closes never cross, and for every type the number of open
tokens equals the number of close tokens. -/
theorem c1_balanced_admonition_tokens
    (tokenize : StateBlock → Nat → Nat → StateBlock)
    (htok : ∀ s a b, ∃ d, (tokenize s a b).tokens = s.tokens ++ d ∧ AdmDyck d) :
    (∀ name marker validate state startLine endLine,
      ∃ d, ((container tokenize name marker validate state startLine endLine false).2).tokens
          = state.tokens ++ d ∧ AdmDyck d ∧
          ∀ t, countOpenTokens t d = countCloseTokens t d) ∧
    (∀ types state startLine endLine,
      ∃ d, ((obsidianCallout tokenize types state startLine endLine false).2).tokens
          = state.tokens ++ d ∧ AdmDyck d ∧
          ∀ t, countOpenTokens t d = countCloseTokens t d) := by
  constructor
  · intro name marker validate state startLine endLine
    simp only [container]
    split
    · exact ⟨[], by simp, AdmDyck.nil, fun t => rfl⟩
    · split
      · exact ⟨[], by simp, AdmDyck.nil, fun t => rfl⟩
      · split
        · exact ⟨[], by simp, AdmDyck.nil, fun t => rfl⟩
        · split
          · simp_all
          · obtain ⟨d0, hd0, hdyck0⟩ := htok _ (startLine + 1) _
            have hdyck : AdmDyck (containerOpenToken name
                (repeatChars marker ((matchMarkerSequence state (getLineStart state startLine + 1)
                  (getLineEnd state startLine) marker marker.length (getLineStart state startLine)
                  - getLineStart state startLine) / marker.length))
                (sliceChars state.src
                  (matchMarkerSequence state (getLineStart state startLine + 1)
                    (getLineEnd state startLine) marker marker.length (getLineStart state startLine)
                   - (matchMarkerSequence state (getLineStart state startLine + 1)
                    (getLineEnd state startLine) marker marker.length (getLineStart state startLine)
                    - getLineStart state startLine) % marker.length)
                  (getLineEnd state startLine))
                startLine
                (findClosingFence state startLine endLine (getLineIndent state startLine)
                  marker[0]? marker marker.length
                  ((matchMarkerSequence state (getLineStart state startLine + 1)
                    (getLineEnd state startLine) marker marker.length (getLineStart state startLine)
                   - getLineStart state startLine) / marker.length)).nextLine
              :: (d0 ++ [containerCloseToken name
                (repeatChars marker ((matchMarkerSequence state (getLineStart state startLine + 1)
                  (getLineEnd state startLine) marker marker.length (getLineStart state startLine)
                  - getLineStart state startLine) / marker.length))])) :=
              AdmDyck.wrap name _ _ d0 [] (admTag_open_name name) (admTag_close_name name)
                hdyck0 AdmDyck.nil
            refine ⟨_, ?_, hdyck, fun t => AdmDyck.count_eq hdyck t⟩
            simp only [tokens_restoreState, tokens_statePush]
            rw [hd0]
            simp [tokens_statePush, List.append_assoc]
  · intro types state startLine endLine
    simp only [obsidianCallout]
    split
    · exact ⟨[], by simp, AdmDyck.nil, fun t => rfl⟩
    · rename_i calloutInfo heq
      simp only [Bool.false_eq_true, if_false]
      simp only [processContentWithTemporaryState]
      split
      · refine ⟨obsidianOpenToken calloutInfo.calloutType
          (calloutInfo.calloutType ++
            (if calloutInfo.title.isEmpty then [] else ' ' :: calloutInfo.title))
          startLine (extractObsidianContent state startLine endLine).2
          :: ([] ++ [obsidianCloseToken calloutInfo.calloutType]), ?_, ?_, ?_⟩
        · simp [tokens_restoreState, tokens_statePush]
        · exact AdmDyck.wrap calloutInfo.calloutType _ _ [] []
            (admTag_open_name _) (admTag_close_name _) AdmDyck.nil AdmDyck.nil
        · intro t
          exact AdmDyck.count_eq (AdmDyck.wrap calloutInfo.calloutType _ _ [] []
            (admTag_open_name _) (admTag_close_name _) AdmDyck.nil AdmDyck.nil) t
      · obtain ⟨d0, hd0, hdyck0⟩ := htok _ 0 _
        have hdyck : AdmDyck (obsidianOpenToken calloutInfo.calloutType
            (calloutInfo.calloutType ++
              (if calloutInfo.title.isEmpty then [] else ' ' :: calloutInfo.title))
            startLine (extractObsidianContent state startLine endLine).2
            :: (d0 ++ [obsidianCloseToken calloutInfo.calloutType])) :=
          AdmDyck.wrap calloutInfo.calloutType _ _ d0 []
            (admTag_open_name _) (admTag_close_name _) hdyck0 AdmDyck.nil
        refine ⟨_, ?_, hdyck, fun t => AdmDyck.count_eq hdyck t⟩
        simp only [tokens_restoreState, tokens_statePush]
        rw [hd0]
        simp [tokens_statePush, List.append_assoc]

/-- C6.  Silent (lookahead) mode: with `silent = true` each rule returns
the same match boolean as the corresponding non-silent invocation, while
leaving the parser state — token list, cursor, buffers, line tables and
scope fields — completely unchanged. -/
theorem c6_silent_lookahead :
    (∀ tokenize name marker validate state startLine endLine,
      (container tokenize name marker validate state startLine endLine true).1
        = (container tokenize name marker validate state startLine endLine false).1 ∧
      (container tokenize name marker validate state startLine endLine true).2 = state) ∧
    (∀ tokenize types state startLine endLine,
      (obsidianCallout tokenize types state startLine endLine true).1
        = (obsidianCallout tokenize types state startLine endLine false).1 ∧
      (obsidianCallout tokenize types state startLine endLine true).2 = state) := by
  constructor
  · intro tokenize name marker validate state startLine endLine
    refine ⟨?_, ?_⟩ <;>
    · simp only [container]
      split
      · rfl
      · split
        · rfl
        · split
          · rfl
          · simp
  · intro tokenize types state startLine endLine
    refine ⟨?_, ?_⟩ <;>
    · simp only [obsidianCallout]
      split
      · rfl
      · simp

lemma processContent_src (tokenize : StateBlock → Nat → Nat → StateBlock)
    (s : StateBlock) (contentLines : List (List Char)) :
    (processContentWithTemporaryState tokenize s contentLines).src = s.src := by
  unfold processContentWithTemporaryState
  split <;> simp

lemma processContent_bMarks (tokenize : StateBlock → Nat → Nat → StateBlock)
    (s : StateBlock) (contentLines : List (List Char)) :
    (processContentWithTemporaryState tokenize s contentLines).bMarks = s.bMarks := by
  unfold processContentWithTemporaryState
  split <;> simp

lemma processContent_eMarks (tokenize : StateBlock → Nat → Nat → StateBlock)
    (s : StateBlock) (contentLines : List (List Char)) :
    (processContentWithTemporaryState tokenize s contentLines).eMarks = s.eMarks := by
  unfold processContentWithTemporaryState
  split <;> simp

lemma processContent_tShift (tokenize : StateBlock → Nat → Nat → StateBlock)
    (s : StateBlock) (contentLines : List (List Char)) :
    (processContentWithTemporaryState tokenize s contentLines).tShift = s.tShift := by
  unfold processContentWithTemporaryState
  split <;> simp

lemma processContent_sCount (tokenize : StateBlock → Nat → Nat → StateBlock)
    (s : StateBlock) (contentLines : List (List Char)) :
    (processContentWithTemporaryState tokenize s contentLines).sCount = s.sCount := by
  unfold processContentWithTemporaryState
  split <;> simp

/-- C5.  Save/restore discipline: a matching non-silent invocation of
either rule returns with `parentType`, `lineMax` and `blkIndent` equal to
their pre-call values; the blockquote-callout rule additionally returns
with the source buffer and all four line-table arrays equal to their
pre-call values (saved before the synthetic-buffer swap and restored
unconditionally afterwards), for every host tokenizer. -/
theorem c5_state_restoration :
    (∀ tokenize name marker validate state startLine endLine s2,
      container tokenize name marker validate state startLine endLine false = (true, s2) →
      s2.parentType = state.parentType ∧ s2.lineMax = state.lineMax ∧
      s2.blkIndent = state.blkIndent) ∧
    (∀ tokenize types state startLine endLine s2,
      obsidianCallout tokenize types state startLine endLine false = (true, s2) →
      (s2.parentType = state.parentType ∧ s2.lineMax = state.lineMax ∧
       s2.blkIndent = state.blkIndent) ∧
      s2.src = state.src ∧ s2.bMarks = state.bMarks ∧ s2.eMarks = state.eMarks ∧
      s2.tShift = state.tShift ∧ s2.sCount = state.sCount) := by
  constructor
  · intro tokenize name marker validate state startLine endLine s2 h
    simp only [container] at h
    split at h
    · exact absurd (congrArg Prod.fst h) (by simp)
    · split at h
      · exact absurd (congrArg Prod.fst h) (by simp)
      · split at h
        · exact absurd (congrArg Prod.fst h) (by simp)
        · split at h
          · simp_all
          · have h2 := congrArg Prod.snd h
            simp only at h2
            rw [← h2]
            simp [restoreState, saveState, statePush]
  · intro tokenize types state startLine endLine s2 h
    simp only [obsidianCallout] at h
    split at h
    · exact absurd (congrArg Prod.fst h) (by simp)
    · simp only [Bool.false_eq_true, if_false] at h
      have h2 := congrArg Prod.snd h
      simp only at h2
      rw [← h2]
      simp [restoreState, saveState, statePush, processContent_src, processContent_bMarks,
        processContent_eMarks, processContent_tShift, processContent_sCount]

/-- C10.  A callout header with no following `>`-prefixed line (or sitting
on the last line of the scope) still matches: the rule emits an open token
immediately followed by its close token with no interior tokens, never
invokes the recursive tokenizer (the result is the same for every
`tokenize`), and sets the cursor to `startLine + 1`. -/
theorem c10_header_only_callout
    (types : List (List Char)) (state : StateBlock) (startLine endLine : Nat)
    (info : ObsidianCalloutInfo)
    (hp : parseObsidianCalloutType state startLine types = some info)
    (hnext : endLine ≤ startLine + 1 ∨
      jsStrAt state.src (getLineStart state (startLine + 1)) ≠ some '>') :
    ∀ tokenize, obsidianCallout tokenize types state startLine endLine false =
      (true, { state with
        tokens := state.tokens ++
          [obsidianOpenToken info.calloutType
            (info.calloutType ++ (if info.title.isEmpty then [] else ' ' :: info.title))
            startLine (startLine + 1),
           obsidianCloseToken info.calloutType],
        line := startLine + 1 }) := by
  have hext : extractObsidianContent state startLine endLine = ([], startLine + 1) := by
    unfold extractObsidianContent
    rcases hnext with h | h
    · rw [show endLine - (startLine + 1) = 0 from by omega]
      rfl
    · cases hfuel : endLine - (startLine + 1) with
      | zero => rfl
      | succ f =>
        simp [extractObsidianContentGo, h]
  intro tokenize
  simp only [obsidianCallout, hp, hext, Bool.false_eq_true, if_false]
  simp [processContentWithTemporaryState, statePush, restoreState, saveState]

/-- C3.  Auto-close as recovery: whenever the opening line matches (the
silent probe succeeds), the non-silent run succeeds as well — whether or
not `findClosingFence` found a real closing fence — emitting a matched
open/close token pair whose open token spans to `closingFence.nextLine`,
and the cursor is set to `closingFence.nextLine` when the block was
auto-closed at the scope boundary and to `closingFence.nextLine + 1`
(consuming the close line) when a real close fence was found. -/
theorem c3_autoclose_recovery
    (tokenize : StateBlock → Nat → Nat → StateBlock)
    (htok : ∀ s a b, ∃ d, (tokenize s a b).tokens = s.tokens ++ d)
    (name marker : List Char) (validate : List Char → List Char → Bool)
    (state : StateBlock) (startLine endLine : Nat)
    (hmatch : container tokenize name marker validate state startLine endLine true
      = (true, state)) :
    let currentLineStart := getLineStart state startLine
    let currentLineMax := getLineEnd state startLine
    let position := matchMarkerSequence state (currentLineStart + 1) currentLineMax marker
      marker.length currentLineStart
    let markerCount := (position - currentLineStart) / marker.length
    let markup := repeatChars marker markerCount
    let params := sliceChars state.src (position - (position - currentLineStart) % marker.length)
      currentLineMax
    let closingFence := findClosingFence state startLine endLine (getLineIndent state startLine)
      marker[0]? marker marker.length markerCount
    (container tokenize name marker validate state startLine endLine false).1 = true ∧
    ((container tokenize name marker validate state startLine endLine false).2).line
      = closingFence.nextLine + (if closingFence.found then 1 else 0) ∧
    ∃ d, ((container tokenize name marker validate state startLine endLine false).2).tokens
      = state.tokens ++
        (containerOpenToken name markup params startLine closingFence.nextLine
          :: (d ++ [containerCloseToken name markup])) := by
  dsimp only
  simp only [container] at hmatch ⊢
  split at hmatch
  · exact absurd (congrArg Prod.fst hmatch) (by simp)
  · split at hmatch
    · exact absurd (congrArg Prod.fst hmatch) (by simp)
    · split at hmatch
      · exact absurd (congrArg Prod.fst hmatch) (by simp)
      · rename_i h1 h2 h3
        rw [if_neg h1, if_neg h2, if_neg h3]
        simp only [Bool.false_eq_true, if_false]
        refine ⟨by trivial, by simp [restoreState, saveState, statePush], ?_⟩
        obtain ⟨d0, hd0⟩ := htok _ (startLine + 1) _
        refine ⟨d0, ?_⟩
        simp only [tokens_restoreState, tokens_statePush]
        rw [hd0]
        simp [tokens_statePush, List.append_assoc]

lemma jsStrAtI_natCast (m : List Char) (n : Nat) : jsStrAtI m (n : Int) = m[n]? := by
  simp [jsStrAtI]

lemma tmod_natCast_sub (j cs len : Nat) (h : cs ≤ j) :
    Int.tmod ((j : Int) - (cs : Int)) (len : Int) = (((j - cs) % len : Nat) : Int) := by
  rw [← Nat.cast_sub h]
  simp [Int.tmod]

lemma matchMarkerSequenceGo_spec (state : StateBlock) (maxPos : Nat) (marker : List Char)
    (markerLength startPosition : Nat) :
    ∀ fuel checkPosition, maxPos + 1 - checkPosition ≤ fuel →
    checkPosition ≤ matchMarkerSequenceGo state maxPos marker markerLength startPosition
        fuel checkPosition ∧
    matchMarkerSequenceGo state maxPos marker markerLength startPosition fuel checkPosition
        ≤ Nat.max checkPosition (maxPos + 1) ∧
    (∀ j, checkPosition ≤ j →
      j < matchMarkerSequenceGo state maxPos marker markerLength startPosition fuel
        checkPosition →
      j ≤ maxPos ∧
        jsStrAtI marker (Int.tmod ((j : Int) - (startPosition : Int)) (markerLength : Int))
          = jsStrAt state.src j) ∧
    (matchMarkerSequenceGo state maxPos marker markerLength startPosition fuel checkPosition
        ≤ maxPos →
      jsStrAtI marker (Int.tmod
        ((matchMarkerSequenceGo state maxPos marker markerLength startPosition fuel
            checkPosition : Int) - (startPosition : Int)) (markerLength : Int))
        ≠ jsStrAt state.src
          (matchMarkerSequenceGo state maxPos marker markerLength startPosition fuel
            checkPosition)) := by
  intro fuel
  induction fuel with
  | zero =>
    intro checkPosition hf
    simp only [matchMarkerSequenceGo]
    exact ⟨le_refl _, le_max_left _ _, fun j hj1 hj2 => absurd (lt_of_le_of_lt hj1 hj2)
      (lt_irrefl _), fun hle => absurd hle (by omega)⟩
  | succ f ih =>
    intro checkPosition hf
    simp only [matchMarkerSequenceGo]
    by_cases hle : checkPosition ≤ maxPos
    · rw [if_pos hle]
      by_cases hne : jsStrAtI marker (Int.tmod ((checkPosition : Int) - (startPosition : Int))
          (markerLength : Int)) ≠ jsStrAt state.src checkPosition
      · rw [if_pos hne]
        exact ⟨le_refl _, le_max_left _ _, fun j hj1 hj2 => absurd (lt_of_le_of_lt hj1 hj2)
          (lt_irrefl _), fun _ => hne⟩
      · rw [if_neg hne]
        obtain ⟨ih1, ih2, ih3, ih4⟩ := ih (checkPosition + 1) (by omega)
        have hm1 : Nat.max (checkPosition + 1) (maxPos + 1) = maxPos + 1 :=
          Nat.max_eq_right (by omega)
        have hm2 : Nat.max checkPosition (maxPos + 1) = maxPos + 1 :=
          Nat.max_eq_right (by omega)
        rw [hm1] at ih2
        refine ⟨by omega, by rw [hm2]; omega, ?_, ih4⟩
        intro j hj1 hj2
        rcases Nat.eq_or_lt_of_le hj1 with h | h
        · exact ⟨h ▸ hle, h ▸ (not_not.mp hne)⟩
        · exact ih3 j h hj2
    · rw [if_neg hle]
      exact ⟨le_refl _, le_max_left _ _, fun j hj1 hj2 => absurd (lt_of_le_of_lt hj1 hj2)
        (lt_irrefl _), fun hc => absurd hc hle⟩

/-- The four characterizing properties of the marker matcher inherited
from the loop lemma, at the exact fuel used by the wrapper. -/
lemma matchMarkerSequence_spec (state : StateBlock) (position maxPos : Nat)
    (marker : List Char) (markerLength startPosition : Nat) :
    position ≤ matchMarkerSequence state position maxPos marker markerLength startPosition ∧
    matchMarkerSequence state position maxPos marker markerLength startPosition
      ≤ Nat.max position (maxPos + 1) ∧
    (∀ j, position ≤ j →
      j < matchMarkerSequence state position maxPos marker markerLength startPosition →
      j ≤ maxPos ∧
        jsStrAtI marker (Int.tmod ((j : Int) - (startPosition : Int)) (markerLength : Int))
          = jsStrAt state.src j) ∧
    (matchMarkerSequence state position maxPos marker markerLength startPosition ≤ maxPos →
      jsStrAtI marker (Int.tmod
        ((matchMarkerSequence state position maxPos marker markerLength startPosition : Int)
          - (startPosition : Int)) (markerLength : Int))
        ≠ jsStrAt state.src
          (matchMarkerSequence state position maxPos marker markerLength startPosition)) :=
  matchMarkerSequenceGo_spec state maxPos marker markerLength startPosition
    (maxPos + 1 - position) position (le_refl _)

/-- The marker matcher returns the unique first-stopping position: if all
positions in `[position, stop)` match and `stop` does not (or lies past
`maxPos`), it returns exactly `stop`. -/
lemma matchMarkerSequence_eq_of (state : StateBlock) (position maxPos : Nat)
    (marker : List Char) (markerLength startPosition stop : Nat)
    (h1 : position ≤ stop) (h2 : stop ≤ maxPos + 1)
    (hmatch : ∀ j, position ≤ j → j < stop →
      jsStrAtI marker (Int.tmod ((j : Int) - (startPosition : Int)) (markerLength : Int))
        = jsStrAt state.src j)
    (hstop : stop ≤ maxPos →
      jsStrAtI marker (Int.tmod ((stop : Int) - (startPosition : Int)) (markerLength : Int))
        ≠ jsStrAt state.src stop) :
    matchMarkerSequence state position maxPos marker markerLength startPosition = stop := by
  obtain ⟨ha, hb, hc, hd⟩ := matchMarkerSequence_spec state position maxPos marker
    markerLength startPosition
  rcases lt_trichotomy
    (matchMarkerSequence state position maxPos marker markerLength startPosition) stop
    with h | h | h
  · exfalso
    have hrle : matchMarkerSequence state position maxPos marker markerLength startPosition
        ≤ maxPos := by omega
    exact hd hrle (hmatch _ ha h)
  · exact h
  · exfalso
    obtain ⟨hjle, hjeq⟩ := hc stop h1 h
    exact hstop hjle hjeq


/-- C4 counterexample: the claim that the marker matcher's returned
position never exceeds `maxPos` is false.  On the buffer `":::"` with
marker `":"`, origin 0, `fromPos = 0` and `maxPos = 2`, the character at
position `maxPos` itself still matches (the loop condition is
`checkPosition <= max`), so the returned exclusive end is 3 > 2. -/
theorem c4_matcher_bound_counterexample :
    matchMarkerSequence c4State 0 2 [':'] 1 0 = 3 ∧
    ¬ (matchMarkerSequence c4State 0 2 [':'] 1 0 ≤ 2) := by decide

/-- C4 (amended).  The marker matcher compares `buffer[pos]` against
`marker[(pos - originPos) mod markerLen]` (JavaScript remainder and
indexing), advances while equal, stops at the first mismatch or once the
position exceeds `maxPos` (the scan still includes position `maxPos`
itself), and returns the first non-advancing position as an exclusive
end; the returned position never exceeds `max(fromPos, maxPos + 1)` —
it can exceed `maxPos` by one, and equals `fromPos` whenever
`fromPos > maxPos`. -/
theorem c4_matcher_characterization (state : StateBlock) (position maxPos : Nat)
    (marker : List Char) (markerLength startPosition : Nat) :
    position ≤ matchMarkerSequence state position maxPos marker markerLength startPosition ∧
    matchMarkerSequence state position maxPos marker markerLength startPosition
      ≤ Nat.max position (maxPos + 1) ∧
    (∀ j, position ≤ j →
      j < matchMarkerSequence state position maxPos marker markerLength startPosition →
      j ≤ maxPos ∧
        jsStrAtI marker (Int.tmod ((j : Int) - (startPosition : Int)) (markerLength : Int))
          = jsStrAt state.src j) ∧
    (matchMarkerSequence state position maxPos marker markerLength startPosition ≤ maxPos →
      jsStrAtI marker (Int.tmod
        ((matchMarkerSequence state position maxPos marker markerLength startPosition : Int)
          - (startPosition : Int)) (markerLength : Int))
        ≠ jsStrAt state.src
          (matchMarkerSequence state position maxPos marker markerLength startPosition)) :=
  matchMarkerSequence_spec state position maxPos marker markerLength startPosition

lemma repeatChars_length (m : List Char) (k : Nat) :
    (repeatChars m k).length = k * m.length := by
  induction k with
  | zero => simp [repeatChars]
  | succ n ih =>
    simp only [repeatChars, List.replicate_succ, List.flatten_cons, List.length_append]
    rw [repeatChars] at ih
    rw [ih]
    ring

lemma repeatChars_succ (m : List Char) (k : Nat) :
    repeatChars m (k + 1) = m ++ repeatChars m k := by
  simp [repeatChars, List.replicate_succ]

lemma repeatChars_getElem (m : List Char) (k j : Nat) (hj : j < k * m.length) :
    (repeatChars m k)[j]? = m[j % m.length]? := by
  induction k generalizing j with
  | zero => omega
  | succ n ih =>
    have hmul : (n + 1) * m.length = n * m.length + m.length := by ring
    rw [repeatChars_succ]
    by_cases h : j < m.length
    · rw [List.getElem?_append, if_pos h, Nat.mod_eq_of_lt h]
    · have hge : m.length ≤ j := by omega
      rw [List.getElem?_append, if_neg (by omega), ih (j - m.length) (by omega),
        Nat.mod_eq_sub_mod hge]

lemma sliceChars_getElem (s : List Char) (a b j : Nat) (hj : j < b - a) :
    (sliceChars s a b)[j]? = s[a + j]? := by
  simp [sliceChars, List.getElem?_take, hj, List.getElem?_drop]

lemma sliceChars_length (s : List Char) (a b : Nat) (h1 : a ≤ b) (h2 : b ≤ s.length) :
    (sliceChars s a b).length = b - a := by
  simp only [sliceChars, List.length_take, List.length_drop]
  omega

lemma sliceChars_add_drop (s : List Char) (a d b : Nat) :
    sliceChars s (a + d) b = (sliceChars s a b).drop d := by
  simp only [sliceChars, List.drop_take, List.drop_drop]
  congr 1
  omega

lemma run_char_of_slice (s : List Char) (cs cm k : Nat) (m rest : List Char)
    (hord : cs ≤ cm) (hlen : cm ≤ s.length)
    (hslice : sliceChars s cs cm = repeatChars m k ++ rest) :
    ∀ j, j < k * m.length → s[cs + j]? = m[j % m.length]? := by
  intro j hj
  have hslen : (repeatChars m k ++ rest).length = cm - cs := by
    rw [← hslice]; exact sliceChars_length _ _ _ hord hlen
  have hplen : k * m.length + rest.length = cm - cs := by
    simpa [repeatChars_length] using hslen
  have h1 : (sliceChars s cs cm)[j]? = s[cs + j]? := sliceChars_getElem _ _ _ _ (by omega)
  rw [hslice, List.getElem?_append, if_pos (by rw [repeatChars_length]; exact hj),
    repeatChars_getElem m k j hj] at h1
  exact h1.symm

/-- On a line whose content is `k` full repetitions of the marker followed
by `rest` (which does not continue the run), the marker matcher stops
exactly at the end of the run. -/
lemma matchMarkerSequence_repeat_run (state : StateBlock) (cs cm k : Nat)
    (m rest : List Char) (hm : 0 < m.length) (hk : 0 < k)
    (hord : cs ≤ cm) (hlen : cm ≤ state.src.length)
    (hslice : sliceChars state.src cs cm = repeatChars m k ++ rest)
    (hstop : jsStrAt state.src (cs + k * m.length) ≠ m[0]?) :
    matchMarkerSequence state (cs + 1) cm m m.length cs = cs + k * m.length := by
  have hchar := run_char_of_slice state.src cs cm k m rest hord hlen hslice
  have hslen : (repeatChars m k ++ rest).length = cm - cs := by
    rw [← hslice]; exact sliceChars_length _ _ _ hord hlen
  have hplen : k * m.length + rest.length = cm - cs := by
    simpa [repeatChars_length] using hslen
  have hkl : 0 < k * m.length := Nat.mul_pos hk hm
  apply matchMarkerSequence_eq_of
  · omega
  · omega
  · intro j hj1 hj2
    have hcs : cs ≤ j := by omega
    rw [tmod_natCast_sub j cs m.length hcs, jsStrAtI_natCast]
    have := hchar (j - cs) (by omega)
    rw [show cs + (j - cs) = j from by omega] at this
    exact this.symm
  · intro _
    rw [tmod_natCast_sub (cs + k * m.length) cs m.length (by omega), jsStrAtI_natCast,
      show cs + k * m.length - cs = k * m.length from by omega, Nat.mul_mod_left]
    exact fun h => hstop (h.symm)

/-- C8.  For every marker `m` and every `k ≥ 3`, a line consisting of `k`
full repetitions of `m` followed by text `rest` that does not continue
the run and is accepted by the validation predicate is recognized by the
fenced-container rule as opening a block (in silent and non-silent mode
alike); and a line with fewer than 3 full repetitions is a non-match
leaving the state untouched, regardless of the length of `m`. -/
theorem c8_min_marker_repetitions
    (tokenize : StateBlock → Nat → Nat → StateBlock)
    (name : List Char) (validate : List Char → List Char → Bool)
    (state : StateBlock) (startLine endLine k : Nat) (m rest : List Char)
    (hm : 0 < m.length)
    (hord : getLineStart state startLine ≤ getLineEnd state startLine)
    (hlen : getLineEnd state startLine ≤ state.src.length)
    (hslice : sliceChars state.src (getLineStart state startLine)
      (getLineEnd state startLine) = repeatChars m k ++ rest)
    (hstop : jsStrAt state.src (getLineStart state startLine + k * m.length) ≠ m[0]?) :
    (MIN_MARKER_NUM ≤ k → validate rest (repeatChars m k) = true →
      ∀ silent, (container tokenize name m validate state startLine endLine silent).1
        = true) ∧
    (k < MIN_MARKER_NUM →
      ∀ silent, container tokenize name m validate state startLine endLine silent
        = (false, state)) := by
  have hchar := run_char_of_slice state.src (getLineStart state startLine)
    (getLineEnd state startLine) k m rest hord hlen hslice
  constructor
  · intro hk3 hval silent
    simp only [MIN_MARKER_NUM] at hk3
    have hk : 0 < k := by omega
    have hrun := matchMarkerSequence_repeat_run state (getLineStart state startLine)
      (getLineEnd state startLine) k m rest hm hk hord hlen hslice hstop
    have hfirst : jsStrAt state.src (getLineStart state startLine) = m[0]? := by
      have := hchar 0 (Nat.mul_pos hk hm)
      rw [Nat.add_zero, Nat.zero_mod] at this
      exact this
    simp only [container]
    rw [if_neg (by rw [hfirst]; exact fun h => h rfl), hrun,
      show getLineStart state startLine + k * m.length - getLineStart state startLine
        = k * m.length from by omega,
      Nat.mul_div_cancel k hm, if_neg (by simp [MIN_MARKER_NUM]; omega),
      Nat.mul_mod_left, Nat.sub_zero, sliceChars_add_drop, hslice,
      ← repeatChars_length m k, List.drop_left, if_neg (by simp [hval])]
    cases silent <;> simp
  · intro hk3 silent
    simp only [MIN_MARKER_NUM] at hk3
    by_cases hk0 : k = 0
    · subst hk0
      simp only [Nat.zero_mul, Nat.add_zero] at hstop
      simp only [container]
      rw [if_pos (fun h => hstop (h.symm))]
    · have hk : 0 < k := by omega
      have hrun := matchMarkerSequence_repeat_run state (getLineStart state startLine)
        (getLineEnd state startLine) k m rest hm hk hord hlen hslice hstop
      have hfirst : jsStrAt state.src (getLineStart state startLine) = m[0]? := by
        have := hchar 0 (Nat.mul_pos hk hm)
        rw [Nat.add_zero, Nat.zero_mod] at this
        exact this
      simp only [container]
      rw [if_neg (by rw [hfirst]; exact fun h => h rfl), hrun,
        show getLineStart state startLine + k * m.length - getLineStart state startLine
          = k * m.length from by omega,
        Nat.mul_div_cancel k hm, if_pos (by simp [MIN_MARKER_NUM]; omega)]

lemma skipSpacesGo_ge_iff (state : StateBlock) (lineMax : Nat) :
    ∀ fuel pos, state.src.length - pos ≤ fuel →
    (lineMax ≤ skipSpacesGo state fuel pos ↔
      ∀ i, pos ≤ i → i < lineMax → ∃ c, state.src[i]? = some c ∧ isSpace c = true) := by
  intro fuel
  induction fuel with
  | zero =>
    intro pos hf
    simp only [skipSpacesGo]
    constructor
    · intro hle i hi1 hi2
      omega
    · intro hall
      by_contra hlt
      obtain ⟨c, hc, _⟩ := hall pos (le_refl _) (by omega)
      obtain ⟨hplen, _⟩ := List.getElem?_eq_some.mp hc
      omega
  | succ f ih =>
    intro pos hf
    cases hsrc : state.src[pos]? with
    | none =>
      simp only [skipSpacesGo, hsrc]
      constructor
      · intro hle i hi1 hi2
        omega
      · intro hall
        by_contra hlt
        obtain ⟨c, hc, _⟩ := hall pos (le_refl _) (by omega)
        rw [hsrc] at hc
        exact Option.noConfusion hc
    | some c =>
      simp only [skipSpacesGo, hsrc]
      by_cases hsp : isSpace c = true
      · rw [if_pos hsp]
        have hposlen : pos < state.src.length := by
          by_contra h
          rw [List.getElem?_eq_none (by omega)] at hsrc
          exact Option.noConfusion hsrc
        rw [ih (pos + 1) (by omega)]
        constructor
        · intro hall i hi1 hi2
          rcases Nat.eq_or_lt_of_le hi1 with h | h
          · exact ⟨c, h ▸ hsrc, hsp⟩
          · exact hall i h hi2
        · intro hall i hi1 hi2
          exact hall i (by omega) hi2
      · rw [if_neg hsp]
        constructor
        · intro hle i hi1 hi2
          omega
        · intro hall
          by_contra hlt
          obtain ⟨c2, hc2, hsp2⟩ := hall pos (le_refl _) (by omega)
          rw [hsrc] at hc2
          exact hsp (Option.some.inj hc2 ▸ hsp2)

/-- `skipSpaces(pos)` reaches at least `lineMax` exactly when every
character from `pos` up to `lineMax` exists and is a space. -/
lemma skipSpaces_ge_iff (state : StateBlock) (pos lineMax : Nat) :
    lineMax ≤ skipSpaces state pos ↔
      ∀ i, pos ≤ i → i < lineMax → ∃ c, state.src[i]? = some c ∧ isSpace c = true :=
  skipSpacesGo_ge_iff state lineMax (state.src.length - pos) pos (le_refl _)

lemma nat_max_left_of (a b : Nat) (h : b ≤ a) : Nat.max a b = a := Nat.max_eq_left h

lemma nat_max_right_of (a b : Nat) (h : a ≤ b) : Nat.max a b = b := Nat.max_eq_right h

lemma findClosingFenceGo_spec (state : StateBlock) (endLine currentLineIndent : Nat)
    (markerStart : Option Char) (marker : List Char) (markerLength markerCount : Nat) :
    ∀ fuel nextLine, endLine - nextLine ≤ fuel →
    nextLine ≤ (findClosingFenceGo state endLine currentLineIndent markerStart marker
      markerLength markerCount fuel nextLine).nextLine ∧
    (∀ j, nextLine ≤ j →
      j < (findClosingFenceGo state endLine currentLineIndent markerStart marker
        markerLength markerCount fuel nextLine).nextLine →
      closingFenceCloseCond state currentLineIndent markerStart marker markerLength
        markerCount j = false ∧
      closingFenceBreakCond state currentLineIndent j = false) ∧
    ((findClosingFenceGo state endLine currentLineIndent markerStart marker markerLength
        markerCount fuel nextLine).found = true →
      (findClosingFenceGo state endLine currentLineIndent markerStart marker markerLength
        markerCount fuel nextLine).nextLine < endLine ∧
      closingFenceCloseCond state currentLineIndent markerStart marker markerLength
        markerCount (findClosingFenceGo state endLine currentLineIndent markerStart marker
          markerLength markerCount fuel nextLine).nextLine = true) ∧
    ((findClosingFenceGo state endLine currentLineIndent markerStart marker markerLength
        markerCount fuel nextLine).found = false →
      ((findClosingFenceGo state endLine currentLineIndent markerStart marker markerLength
          markerCount fuel nextLine).nextLine < endLine →
        closingFenceBreakCond state currentLineIndent
          (findClosingFenceGo state endLine currentLineIndent markerStart marker markerLength
            markerCount fuel nextLine).nextLine = true) ∧
      (¬ (findClosingFenceGo state endLine currentLineIndent markerStart marker markerLength
          markerCount fuel nextLine).nextLine < endLine →
        (findClosingFenceGo state endLine currentLineIndent markerStart marker markerLength
          markerCount fuel nextLine).nextLine = Nat.max nextLine endLine)) := by
  intro fuel
  induction fuel with
  | zero =>
    intro nextLine hf
    simp only [findClosingFenceGo]
    refine ⟨le_refl _, fun j hj1 hj2 => absurd (lt_of_le_of_lt hj1 hj2) (lt_irrefl _),
      fun h => absurd h (by simp), fun _ => ⟨fun h => absurd h (by omega), fun _ => ?_⟩⟩
    rw [nat_max_left_of _ _ (by omega)]
  | succ f ih =>
    intro nextLine hf
    simp only [findClosingFenceGo]
    by_cases hlt : nextLine < endLine
    · rw [if_pos hlt]
      by_cases hbrk : closingFenceBreakCond state currentLineIndent nextLine = true
      · rw [if_pos hbrk]
        exact ⟨le_refl _, fun j hj1 hj2 => absurd (lt_of_le_of_lt hj1 hj2) (lt_irrefl _),
          fun h => absurd h (by simp), fun _ => ⟨fun _ => hbrk, fun h => absurd hlt h⟩⟩
      · rw [if_neg hbrk]
        by_cases hcls : closingFenceCloseCond state currentLineIndent markerStart marker
            markerLength markerCount nextLine = true
        · rw [if_pos hcls]
          exact ⟨le_refl _, fun j hj1 hj2 => absurd (lt_of_le_of_lt hj1 hj2) (lt_irrefl _),
            fun _ => ⟨hlt, hcls⟩, fun h => absurd h (by simp)⟩
        · rw [if_neg hcls]
          obtain ⟨ih1, ih2, ih3, ih4⟩ := ih (nextLine + 1) (by omega)
          refine ⟨by omega, ?_, ih3, ?_⟩
          · intro j hj1 hj2
            rcases Nat.eq_or_lt_of_le hj1 with h | h
            · exact ⟨h ▸ (Bool.not_eq_true _ ▸ hcls : _ = false),
                h ▸ (Bool.not_eq_true _ ▸ hbrk : _ = false)⟩
            · exact ih2 j h hj2
          · intro hfound
            obtain ⟨ih4a, ih4b⟩ := ih4 hfound
            refine ⟨ih4a, fun h => ?_⟩
            rw [ih4b h, nat_max_right_of _ _ (by omega), nat_max_right_of _ _ (by omega)]
    · rw [if_neg hlt]
      refine ⟨le_refl _, fun j hj1 hj2 => absurd (lt_of_le_of_lt hj1 hj2) (lt_irrefl _),
        fun h => absurd h (by simp), fun _ => ⟨fun h => absurd h hlt, fun _ => ?_⟩⟩
      rw [nat_max_left_of _ _ (by omega)]

/-- C2.  Characterization of the closing-fence search: the scan starts at
`startLine + 1`; every line strictly before the returned line is neither a
valid close line nor an early-break line; when `found` the returned line
is the first valid close line (first valid line wins); when not `found`
the scan either stopped early at the first non-blank line with indent
strictly below the opening line's indent, or ran to the scope boundary.
A line is accepted as a close exactly when its indent equals the open
line's indent, its first character equals the marker's first character,
the marker matcher finds at least `markerCount` full repetitions, and
every character after the run up to the line end is whitespace. -/
theorem c2_closing_fence_search (state : StateBlock)
    (startLine endLine currentLineIndent : Nat) (markerStart : Option Char)
    (marker : List Char) (markerLength markerCount : Nat) :
    (startLine + 1 ≤ (findClosingFence state startLine endLine currentLineIndent markerStart
      marker markerLength markerCount).nextLine ∧
    (∀ j, startLine + 1 ≤ j →
      j < (findClosingFence state startLine endLine currentLineIndent markerStart marker
        markerLength markerCount).nextLine →
      closingFenceCloseCond state currentLineIndent markerStart marker markerLength
        markerCount j = false ∧
      closingFenceBreakCond state currentLineIndent j = false) ∧
    ((findClosingFence state startLine endLine currentLineIndent markerStart marker
        markerLength markerCount).found = true →
      (findClosingFence state startLine endLine currentLineIndent markerStart marker
        markerLength markerCount).nextLine < endLine ∧
      closingFenceCloseCond state currentLineIndent markerStart marker markerLength
        markerCount (findClosingFence state startLine endLine currentLineIndent markerStart
          marker markerLength markerCount).nextLine = true) ∧
    ((findClosingFence state startLine endLine currentLineIndent markerStart marker
        markerLength markerCount).found = false →
      ((findClosingFence state startLine endLine currentLineIndent markerStart marker
          markerLength markerCount).nextLine < endLine →
        closingFenceBreakCond state currentLineIndent
          (findClosingFence state startLine endLine currentLineIndent markerStart marker
            markerLength markerCount).nextLine = true) ∧
      (¬ (findClosingFence state startLine endLine currentLineIndent markerStart marker
          markerLength markerCount).nextLine < endLine →
        (findClosingFence state startLine endLine currentLineIndent markerStart marker
          markerLength markerCount).nextLine = Nat.max (startLine + 1) endLine))) ∧
    (∀ j, closingFenceCloseCond state currentLineIndent markerStart marker markerLength
        markerCount j = true ↔
      (getLineIndent state j = currentLineIndent ∧
       markerStart = jsStrAt state.src (getLineStart state j) ∧
       markerCount ≤ (matchMarkerSequence state (getLineStart state j + 1)
         (getLineEnd state j) marker markerLength (getLineStart state j)
         - getLineStart state j) / markerLength ∧
       ∀ i, matchMarkerSequence state (getLineStart state j + 1) (getLineEnd state j)
           marker markerLength (getLineStart state j)
           - (matchMarkerSequence state (getLineStart state j + 1) (getLineEnd state j)
              marker markerLength (getLineStart state j) - getLineStart state j)
             % markerLength ≤ i →
         i < getLineEnd state j →
         ∃ c, state.src[i]? = some c ∧ isSpace c = true)) := by
  constructor
  · exact findClosingFenceGo_spec state endLine currentLineIndent markerStart marker
      markerLength markerCount (endLine - (startLine + 1)) (startLine + 1) (le_refl _)
  · intro j
    simp only [closingFenceCloseCond, Bool.and_eq_true, decide_eq_true_eq]
    rw [skipSpaces_ge_iff]
    tauto

lemma findCloseBracketGo_spec (state : StateBlock) (max : Nat) :
    ∀ fuel e, max - e ≤ fuel →
    e ≤ findCloseBracketGo state max fuel e ∧
    (∀ j, e ≤ j → j < findCloseBracketGo state max fuel e →
      jsStrAt state.src j ≠ some ']') ∧
    (findCloseBracketGo state max fuel e < max →
      jsStrAt state.src (findCloseBracketGo state max fuel e) = some ']') := by
  intro fuel
  induction fuel with
  | zero =>
    intro e hf
    simp only [findCloseBracketGo]
    exact ⟨le_refl _, fun j hj1 hj2 => absurd (lt_of_le_of_lt hj1 hj2) (lt_irrefl _),
      fun h => absurd h (by omega)⟩
  | succ f ih =>
    intro e hf
    simp only [findCloseBracketGo]
    by_cases hlt : e < max
    · rw [if_pos hlt]
      by_cases hne : jsStrAt state.src e ≠ some ']'
      · rw [if_pos hne]
        obtain ⟨ih1, ih2, ih3⟩ := ih (e + 1) (by omega)
        refine ⟨by omega, ?_, ih3⟩
        intro j hj1 hj2
        rcases Nat.eq_or_lt_of_le hj1 with h | h
        · exact h ▸ hne
        · exact ih2 j h hj2
      · rw [if_neg hne]
        exact ⟨le_refl _, fun j hj1 hj2 => absurd (lt_of_le_of_lt hj1 hj2) (lt_irrefl _),
          fun _ => not_not.mp hne⟩
    · rw [if_neg hlt]
      exact ⟨le_refl _, fun j hj1 hj2 => absurd (lt_of_le_of_lt hj1 hj2) (lt_irrefl _),
        fun h => absurd h (by omega)⟩

lemma findCloseBracket_spec (state : StateBlock) (max e : Nat) :
    e ≤ findCloseBracket state max e ∧
    (∀ j, e ≤ j → j < findCloseBracket state max e → jsStrAt state.src j ≠ some ']') ∧
    (findCloseBracket state max e < max →
      jsStrAt state.src (findCloseBracket state max e) = some ']') :=
  findCloseBracketGo_spec state max (max - e) e (le_refl _)

/-- The bracket scan returns the first `]` position: if `stop` carries a
`]`, lies in range and no earlier position does, the scan returns it. -/
lemma findCloseBracket_eq_of (state : StateBlock) (max e stop : Nat)
    (h1 : e ≤ stop) (h2 : stop < max)
    (hbr : jsStrAt state.src stop = some ']')
    (hprev : ∀ j, e ≤ j → j < stop → jsStrAt state.src j ≠ some ']') :
    findCloseBracket state max e = stop := by
  obtain ⟨ha, hb, hc⟩ := findCloseBracket_spec state max e
  rcases lt_trichotomy (findCloseBracket state max e) stop with h | h | h
  · exact absurd (hc (by omega)) (hprev _ ha h)
  · exact h
  · exact absurd hbr (hb stop h1 h)


/-- Core of the header characterization: the tail of
`parseObsidianCalloutType` after the `>` check succeeds exactly on the
spec-side conditions (bracket pair, closing bracket within the line,
registered lower-cased type). -/
lemma parseTail_some_iff (types : List (List Char)) (state : StateBlock)
    (lineMax lp : Nat) :
    (∃ r, (if jsStrAt state.src lp ≠ some '[' ∨ jsStrAt state.src (lp + 1) ≠ some '!' then
        (none : Option ObsidianCalloutInfo)
      else
        if lineMax ≤ findCloseBracket state lineMax (lp + 2) then none
        else
          if (sliceChars state.src (lp + 2)
              (findCloseBracket state lineMax (lp + 2))).map Char.toLower ∉ types then none
          else
            some
              { calloutType := (sliceChars state.src (lp + 2)
                  (findCloseBracket state lineMax (lp + 2))).map Char.toLower,
                title := if findCloseBracket state lineMax (lp + 2) + 1 < lineMax then
                    trimChars (sliceChars state.src
                      (findCloseBracket state lineMax (lp + 2) + 1) lineMax)
                  else [] }) = some r) ↔
    (jsStrAt state.src lp = some '[' ∧ jsStrAt state.src (lp + 1) = some '!' ∧
     ∃ e, lp + 2 ≤ e ∧ e < lineMax ∧ jsStrAt state.src e = some ']' ∧
       (∀ j, lp + 2 ≤ j → j < e → jsStrAt state.src j ≠ some ']') ∧
       (sliceChars state.src (lp + 2) e).map Char.toLower ∈ types) := by
  constructor
  · rintro ⟨r, hr⟩
    by_cases h2 : jsStrAt state.src lp ≠ some '[' ∨ jsStrAt state.src (lp + 1) ≠ some '!'
    · rw [if_pos h2] at hr
      exact Option.noConfusion hr
    · rw [if_neg h2] at hr
      by_cases h3 : lineMax ≤ findCloseBracket state lineMax (lp + 2)
      · rw [if_pos h3] at hr
        exact Option.noConfusion hr
      · rw [if_neg h3] at hr
        by_cases h4 : (sliceChars state.src (lp + 2)
            (findCloseBracket state lineMax (lp + 2))).map Char.toLower ∉ types
        · rw [if_pos h4] at hr
          exact Option.noConfusion hr
        · obtain ⟨hb, he⟩ := not_or.mp h2
          obtain ⟨ha, hprev, hbr⟩ := findCloseBracket_spec state lineMax (lp + 2)
          exact ⟨not_not.mp hb, not_not.mp he,
            findCloseBracket state lineMax (lp + 2), ha, by omega, hbr (by omega),
            hprev, not_not.mp h4⟩
  · rintro ⟨hlb, hexc, e, he1, he2, hbr, hprev, hmem⟩
    rw [if_neg (not_or.mpr ⟨not_not_intro hlb, not_not_intro hexc⟩),
      findCloseBracket_eq_of state lineMax (lp + 2) e he1 he2 hbr hprev,
      if_neg (by omega), if_neg (not_not_intro hmem)]
    exact ⟨_, rfl⟩

/-- C7.  The blockquote-callout rule matches exactly when the line's first
non-indent character is `>`, optionally followed by one space, then `[`
and `!`, a closing `]` is found within the line, and the bracketed text,
lower-cased, is a registered type name; and whenever the header parse
fails, the rule is a non-match that leaves the state untouched and emits
no tokens. -/
theorem c7_callout_header_match (types : List (List Char)) (state : StateBlock)
    (startLine endLine : Nat) :
    (∀ tokenize,
      ((obsidianCallout tokenize types state startLine endLine true).1 = true ↔
        (jsStrAt state.src (getLineStart state startLine) = some '>' ∧
         jsStrAt state.src (calloutHeaderBracketPos state startLine) = some '[' ∧
         jsStrAt state.src (calloutHeaderBracketPos state startLine + 1) = some '!' ∧
         ∃ e, calloutHeaderBracketPos state startLine + 2 ≤ e ∧
           e < getLineEnd state startLine ∧
           jsStrAt state.src e = some ']' ∧
           (∀ j, calloutHeaderBracketPos state startLine + 2 ≤ j → j < e →
             jsStrAt state.src j ≠ some ']') ∧
           (sliceChars state.src (calloutHeaderBracketPos state startLine + 2) e).map
             Char.toLower ∈ types))) ∧
    (parseObsidianCalloutType state startLine types = none →
      ∀ tokenize silent,
        obsidianCallout tokenize types state startLine endLine silent = (false, state)) := by
  have hiff : (∃ r, parseObsidianCalloutType state startLine types = some r) ↔
      (jsStrAt state.src (getLineStart state startLine) = some '>' ∧
       jsStrAt state.src (calloutHeaderBracketPos state startLine) = some '[' ∧
       jsStrAt state.src (calloutHeaderBracketPos state startLine + 1) = some '!' ∧
       ∃ e, calloutHeaderBracketPos state startLine + 2 ≤ e ∧
         e < getLineEnd state startLine ∧
         jsStrAt state.src e = some ']' ∧
         (∀ j, calloutHeaderBracketPos state startLine + 2 ≤ j → j < e →
           jsStrAt state.src j ≠ some ']') ∧
         (sliceChars state.src (calloutHeaderBracketPos state startLine + 2) e).map
           Char.toLower ∈ types) := by
    simp only [parseObsidianCalloutType, calloutHeaderBracketPos]
    by_cases h1 : jsStrAt state.src (getLineStart state startLine) ≠ some '>'
    · simp only [if_pos h1]
      constructor
      · rintro ⟨r, hr⟩
        exact Option.noConfusion hr
      · rintro ⟨hgt, _⟩
        exact absurd hgt h1
    · simp only [if_neg h1]
      have hgt := not_not.mp h1
      by_cases hsp : jsStrAt state.src (getLineStart state startLine + 1) = some ' '
      · simp only [if_pos hsp]
        rw [parseTail_some_iff types state (getLineEnd state startLine)
          (getLineStart state startLine + 1 + 1)]
        simp [hgt]
      · simp only [if_neg hsp]
        rw [parseTail_some_iff types state (getLineEnd state startLine)
          (getLineStart state startLine + 1)]
        simp [hgt]
  constructor
  · intro tokenize
    rw [← hiff]
    simp only [obsidianCallout]
    cases hp : parseObsidianCalloutType state startLine types with
    | none => simp
    | some r => simp
  · intro hnone tokenize silent
    simp only [obsidianCallout, hnone]

lemma except_seq_error_left {α : Type} (x : Except (List Char) Unit)
    (y : Except (List Char) α) (h : ∃ e, x = Except.error e) :
    ∃ e, (do x; y) = Except.error e := by
  obtain ⟨e, he⟩ := h
  exact ⟨e, by rw [he]; rfl⟩

lemma except_seq_error_right {α : Type} (x : Except (List Char) Unit)
    (y : Except (List Char) α) (h : ∃ e, y = Except.error e) :
    ∃ e, (do x; y) = Except.error e := by
  obtain ⟨e, he⟩ := h
  cases x with
  | error e2 => exact ⟨e2, rfl⟩
  | ok u => exact ⟨e, by rw [← he]; rfl⟩

lemma validateRenderPair_asymmetric_error (key : List Char) (pair : CustomRenderPair)
    (h : pair.openFn.isSome ≠ pair.closeFn.isSome) :
    ∃ e, validateRenderPair key pair = Except.error e := by
  unfold validateRenderPair
  by_cases hk : key.isEmpty
  · rw [if_pos hk]
    exact ⟨_, rfl⟩
  · rw [if_neg hk]
    cases hop : pair.openFn <;> cases hcl : pair.closeFn <;> simp_all

lemma validateCustomRenders_asymmetric_error
    (crs : List (List Char × CustomRenderPair)) (key : List Char)
    (pair : CustomRenderPair) (hmem : (key, pair) ∈ crs)
    (h : pair.openFn.isSome ≠ pair.closeFn.isSome) :
    ∃ e, validateCustomRenders crs = Except.error e := by
  induction crs with
  | nil => cases hmem
  | cons hd tl ih =>
    obtain ⟨k, p⟩ := hd
    cases hmem with
    | head =>
      apply except_seq_error_left
      exact validateRenderPair_asymmetric_error key pair h
    | tail _ hmem2 =>
      apply except_seq_error_right
      exact ih hmem2

/-- C9.  Configuration errors abort registration: an asymmetric
`customRenders` entry (only `open` or only `close` supplied), or both
`obsidianStyle` and `docusaurusStyle` disabled, make the plugin throw a
`TypeError` before any rule is registered — `admonitionPlugin` returns an
error and no `Registration` is produced. -/
theorem c9_configuration_errors :
    (∀ (options : AdmonitionPluginOptions) (crs : List (List Char × CustomRenderPair))
       (key : List Char) (pair : CustomRenderPair),
      options.customRenders = some crs → (key, pair) ∈ crs →
      pair.openFn.isSome ≠ pair.closeFn.isSome →
      ∃ e, admonitionPlugin options = Except.error e) ∧
    (∀ options : AdmonitionPluginOptions,
      options.obsidianStyle = some false → options.docusaurusStyle = some false →
      ∃ e, admonitionPlugin options = Except.error e) := by
  constructor
  · intro options crs key pair hcrs hmem hasym
    have hval : ∃ e, validatePluginOptions options = Except.error e := by
      unfold validatePluginOptions
      apply except_seq_error_right
      apply except_seq_error_right
      apply except_seq_error_right
      rw [hcrs]
      exact validateCustomRenders_asymmetric_error crs key pair hmem hasym
    unfold admonitionPlugin
    exact except_seq_error_left _ _ hval
  · intro options hobs hdoc
    unfold admonitionPlugin
    apply except_seq_error_right
    rw [hobs, hdoc]
    apply except_seq_error_left
    exact ⟨_, rfl⟩


theorem c1_balanced_admonition_tokens_witness :
    ∃ d, ((container (fun s _ _ => s) (("note").toList) [':'] (fun _ _ => true)
        c3State 0 2 false).2).tokens = c3State.tokens ++ d ∧ AdmDyck d ∧
      ∀ t, countOpenTokens t d = countCloseTokens t d :=
  (c1_balanced_admonition_tokens (fun s _ _ => s)
    (fun s _ _ => ⟨[], by simp, AdmDyck.nil⟩)).1 (("note").toList) [':']
    (fun _ _ => true) c3State 0 2

theorem c2_closing_fence_search_witness :
    (findClosingFence c2State 0 3 0 (some ':') [':'] 1 3).found = true ∧
    closingFenceCloseCond c2State 0 (some ':') [':'] 1 3
      (findClosingFence c2State 0 3 0 (some ':') [':'] 1 3).nextLine = true :=
  ⟨by decide, ((c2_closing_fence_search c2State 0 3 0 (some ':') [':'] 1 3).1.2.2.1
    (by decide)).2⟩

theorem c3_autoclose_recovery_witness :
    (container (fun s _ _ => s) (("note").toList) [':'] (fun _ _ => true) c3State 0 2
      false).1 = true ∧
    ((container (fun s _ _ => s) (("note").toList) [':'] (fun _ _ => true) c3State 0 2
      false).2).line = 2 := by
  have h := c3_autoclose_recovery (fun s _ _ => s) (fun s a b => ⟨[], by simp⟩)
    (("note").toList) [':'] (fun _ _ => true) c3State 0 2 (by decide)
  refine ⟨h.1, ?_⟩
  have h2 := h.2.1
  rw [h2]
  decide

theorem c4_matcher_characterization_witness :
    0 ≤ matchMarkerSequence c4State 0 2 [':'] 1 0 ∧
    matchMarkerSequence c4State 0 2 [':'] 1 0 ≤ Nat.max 0 (2 + 1) := by
  have h := c4_matcher_characterization c4State 0 2 [':'] 1 0
  exact ⟨h.1, h.2.1⟩

theorem c5_state_restoration_witness :
    ((container (fun s _ _ => s) (("note").toList) [':'] (fun _ _ => true) c3State 0 2
      false).2).parentType = c3State.parentType := by
  have h := (c5_state_restoration).1 (fun s _ _ => s) (("note").toList) [':']
    (fun _ _ => true) c3State 0 2
    ((container (fun s _ _ => s) (("note").toList) [':'] (fun _ _ => true) c3State 0 2
      false).2) (by decide)
  exact h.1

theorem c7_callout_header_match_witness :
    obsidianCallout (fun s _ _ => s) [("note").toList] c4State 0 1 false
      = (false, c4State) :=
  (c7_callout_header_match [("note").toList] c4State 0 1).2 (by decide)
    (fun s _ _ => s) false

theorem c8_min_marker_repetitions_witness :
    (container (fun s _ _ => s) (("note").toList) [':'] (fun _ _ => true) c3State 0 2
      true).1 = true :=
  (c8_min_marker_repetitions (fun s _ _ => s) (("note").toList) (fun _ _ => true)
    c3State 0 2 3 [':'] (("note").toList) (by decide) (by decide) (by decide)
    (by decide) (by decide)).1 (by decide) rfl true

theorem c9_configuration_errors_witness :
    ∃ e, admonitionPlugin c9Options = Except.error e :=
  (c9_configuration_errors).1 c9Options
    [((("note").toList), { openFn := some (), closeFn := none })] (("note").toList)
    { openFn := some (), closeFn := none } rfl (by decide) (by decide)

theorem c10_header_only_callout_witness :
    obsidianCallout (fun s _ _ => s) [("note").toList] c10State 0 1 false =
      (true, { c10State with
        tokens := c10State.tokens ++
          [obsidianOpenToken (("note").toList)
            ((("note").toList) ++
              (if (("Hi").toList).isEmpty then [] else ' ' :: (("Hi").toList)))
            0 (0 + 1),
           obsidianCloseToken (("note").toList)],
        line := 0 + 1 }) :=
  c10_header_only_callout [("note").toList] c10State 0 1
    { calloutType := ("note").toList, title := ("Hi").toList } (by decide) (by decide)
    (fun s _ _ => s)

end Admonitions
